import Mathlib

/-!
Verification of the resilient subtitle-pipeline core of the
video-subtitle-generator repository.

Each definition is a shallow embedding of the Python code it is named
after (file and line references are given in the doc comments).
Machine floats of the source are modelled as rationals; wall-clock
times are explicit rational parameters; the random jitter draw of
`random.uniform` is an explicit parameter constrained to its interval.
-/

/- ## Retry & rate core: `src/retry_handler.py` -/

/-- Embedding of `RetryConfig.__init__` (retry_handler.py lines 24-41). -/
structure RetryConfig where
  maxAttempts : ℕ
  baseDelay : ℚ
  maxDelay : ℚ
  exponentialBase : ℚ
  jitter : Bool
  backoffMultiplier : ℚ
deriving Repr, DecidableEq

/-- Embedding of `RetryConfig.calculate_delay` (retry_handler.py lines 43-56).
`delay = base * exponential_base ** (attempt - 1)`, then
`delay *= backoff_multiplier`, then jitter `delay += uniform(0, delay * 0.1)`
(the draw is modelled as `delay * u` with `0 ≤ u ≤ 1/10`), and finally
`min(delay, max_delay)`.  For `attempt <= 0` the function returns `0`. -/
def calculateDelay (cfg : RetryConfig) (attempt : ℤ) (u : ℚ) : ℚ :=
  if attempt ≤ 0 then 0
  else
    let d0 := cfg.baseDelay * cfg.exponentialBase ^ (attempt - 1).toNat *
      cfg.backoffMultiplier
    let d1 := if cfg.jitter then d0 + d0 * u else d0
    min d1 cfg.maxDelay

/-- The `'default'` entry of `RetryHandler.retry_configs`
(retry_handler.py line 125): all `RetryConfig.__init__` defaults. -/
def defaultRetryConfig : RetryConfig :=
  ⟨3, 1, 60, 2, true, 1⟩

/-- Embedding of `RetryHandler.retry_configs` (retry_handler.py lines 124-130). -/
def retryConfigs : List (String × RetryConfig) :=
  [("default", defaultRetryConfig),
   ("network", ⟨5, 2, 120, 2, true, 1⟩),
   ("storage", ⟨4, 3/2, 90, 2, true, 1⟩),
   ("ai", ⟨3, 3, 180, 2, true, 1⟩),
   ("quota", ⟨2, 60, 300, 2, true, 1⟩)]

/-- Lookup `self.retry_configs.get(retry_config, self.retry_configs['default'])`
(retry_handler.py line 147). -/
def getRetryConfig (name : String) : RetryConfig :=
  ((retryConfigs.find? (fun p => p.1 == name)).map Prod.snd).getD
    defaultRetryConfig

/-- The three circuit-breaker states of retry_handler.py line 74. -/
inductive CBState where
  | closed
  | opened
  | halfOpen
deriving Repr, DecidableEq

/-- Embedding of `CircuitBreaker.__init__` (retry_handler.py lines 62-74). -/
structure CircuitBreaker where
  failureThreshold : ℕ
  recoveryTimeout : ℚ
  failureCount : ℕ
  lastFailureTime : Option ℚ
  state : CBState
deriving Repr, DecidableEq

/-- A fresh breaker with the constructor defaults
(`failure_threshold=5`, `recovery_timeout=60.0`). -/
def initCircuitBreaker : CircuitBreaker :=
  ⟨5, 60, 0, none, CBState.closed⟩

/-- Embedding of `CircuitBreaker._should_attempt_reset` (retry_handler.py lines 99-103). -/
def shouldAttemptReset (cb : CircuitBreaker) (now : ℚ) : Bool :=
  match cb.lastFailureTime with
  | none => true
  | some t => decide (cb.recoveryTimeout ≤ now - t)

/-- Embedding of `CircuitBreaker._on_success` (retry_handler.py lines 105-108). -/
def cbOnSuccess (cb : CircuitBreaker) : CircuitBreaker :=
  { cb with failureCount := 0, state := CBState.closed }

/-- Embedding of `CircuitBreaker._on_failure` (retry_handler.py lines 110-116). -/
def cbOnFailure (cb : CircuitBreaker) (now : ℚ) : CircuitBreaker :=
  let c := cb.failureCount + 1
  { cb with
    failureCount := c
    lastFailureTime := some now
    state := if cb.failureThreshold ≤ c then CBState.opened else cb.state }

/-- Outcome of one `CircuitBreaker.call`. -/
inductive CBResult where
  | rejected
  | ok
  | failed
deriving Repr, DecidableEq

/-- Embedding of `CircuitBreaker.call` (retry_handler.py lines 76-97).  The protected
function is abstracted to its outcome `succeeds`; the third component of
the result records whether the protected function was invoked at all
(it is `false` exactly on the fail-fast `Circuit breaker is OPEN` raise
of lines 82-89). -/
def cbCall (cb : CircuitBreaker) (now : ℚ) (succeeds : Bool) :
    CBResult × CircuitBreaker × Bool :=
  if cb.state = CBState.opened ∧ ¬ shouldAttemptReset cb now then
    (CBResult.rejected, cb, false)
  else
    let cb1 := if cb.state = CBState.opened then
      { cb with state := CBState.halfOpen } else cb
    if succeeds then (CBResult.ok, cbOnSuccess cb1, true)
    else (CBResult.failed, cbOnFailure cb1 now, true)

/-- Repeated failing calls through the breaker, at the given times. -/
def cbApplyFailures (cb : CircuitBreaker) : List ℚ → CircuitBreaker
  | [] => cb
  | t :: ts => cbApplyFailures (cbCall cb t false).2.1 ts

/-- Embedding of `RateLimiter.__init__` (retry_handler.py lines 307-309). -/
structure RateLimiter where
  callsPerMinute : ℕ
  calls : List ℚ
deriving Repr, DecidableEq

/-- Embedding of `RateLimiter.acquire` (retry_handler.py lines 311-326): prune
timestamps older than 60 seconds, admit with delay `0` (recording `now`)
when fewer than `calls_per_minute` remain, otherwise report delay
`60 - (now - oldest) + 0.1` without recording.  `min(self.calls)` of
line 320 is only reached on a nonempty list in the source; the `getD 0`
default is never used when `1 ≤ calls_per_minute`. -/
def rlAcquire (rl : RateLimiter) (now : ℚ) : ℚ × RateLimiter :=
  let recent := rl.calls.filter (fun t => decide (now - t < 60))
  if rl.callsPerMinute ≤ recent.length then
    let oldest := recent.min?.getD 0
    let delay := 60 - (now - oldest) + 1/10
    (max 0 delay, ⟨rl.callsPerMinute, recent⟩)
  else
    (0, ⟨rl.callsPerMinute, recent ++ [now]⟩)

/-- The global `rate_limiters` table (retry_handler.py lines 337-341),
keyed by service: the model port is `'vertex_ai'`, the store port is
`'storage'`. -/
def rateLimiters : List (String × ℕ) :=
  [("vertex_ai", 30), ("storage", 100), ("default", 60)]

/- ## Job-state store: `src/state_manager.py` -/

/-- Embedding of `ProcessingStage` (state_manager.py lines 15-29). -/
inductive ProcessingStage where
  | created
  | validating
  | analyzing
  | chunking
  | connecting
  | uploading
  | initializing
  | generating
  | downloading
  | merging
  | finalizing
  | completed
  | failed
deriving Repr, DecidableEq

/-- The integer value of each enum member (state_manager.py lines 17-29);
`FAILED = -1`. -/
def stageValue : ProcessingStage → ℤ
  | ProcessingStage.created => 0
  | ProcessingStage.validating => 1
  | ProcessingStage.analyzing => 2
  | ProcessingStage.chunking => 3
  | ProcessingStage.connecting => 4
  | ProcessingStage.uploading => 5
  | ProcessingStage.initializing => 6
  | ProcessingStage.generating => 7
  | ProcessingStage.downloading => 8
  | ProcessingStage.merging => 9
  | ProcessingStage.finalizing => 10
  | ProcessingStage.completed => 11
  | ProcessingStage.failed => -1

/-- Conversion `ProcessingStage(value)` as used by `JobState.from_dict`
(state_manager.py line 56): `none` models the `ValueError` of an
unknown enum value. -/
def stageOfValue (v : ℤ) : Option ProcessingStage :=
  if v = 0 then some ProcessingStage.created
  else if v = 1 then some ProcessingStage.validating
  else if v = 2 then some ProcessingStage.analyzing
  else if v = 3 then some ProcessingStage.chunking
  else if v = 4 then some ProcessingStage.connecting
  else if v = 5 then some ProcessingStage.uploading
  else if v = 6 then some ProcessingStage.initializing
  else if v = 7 then some ProcessingStage.generating
  else if v = 8 then some ProcessingStage.downloading
  else if v = 9 then some ProcessingStage.merging
  else if v = 10 then some ProcessingStage.finalizing
  else if v = 11 then some ProcessingStage.completed
  else if v = -1 then some ProcessingStage.failed
  else none

/-- The `metadata` dict of a job, modelled as a string-keyed map whose
values are opaque serialised payloads. -/
abbrev Metadata := List (String × String)

/-- Embedding of `JobState` (state_manager.py lines 31-45). -/
structure JobState where
  job_id : String
  video_path : String
  video_name : String
  languages : List String
  enable_sdh : Bool
  current_stage : ProcessingStage
  created_at : ℚ
  updated_at : ℚ
  completed_at : Option ℚ
  error : Option String
  metadata : Metadata
  output_dir : Option String
deriving Repr, DecidableEq

/-- The serialised form produced by `JobState.to_dict`
(state_manager.py lines 47-51): the stage is its integer value. -/
structure JobRecord where
  job_id : String
  video_path : String
  video_name : String
  languages : List String
  enable_sdh : Bool
  current_stage : ℤ
  created_at : ℚ
  updated_at : ℚ
  completed_at : Option ℚ
  error : Option String
  metadata : Metadata
  output_dir : Option String
deriving Repr, DecidableEq

/-- Embedding of `JobState.to_dict` (state_manager.py lines 47-51). -/
def toDict (j : JobState) : JobRecord :=
  ⟨j.job_id, j.video_path, j.video_name, j.languages, j.enable_sdh,
   stageValue j.current_stage, j.created_at, j.updated_at, j.completed_at,
   j.error, j.metadata, j.output_dir⟩

/-- Embedding of `JobState.from_dict` (state_manager.py lines 53-57): `none` models a
raised `ValueError` on an unknown stage value. -/
def fromDict (r : JobRecord) : Option JobState :=
  (stageOfValue r.current_stage).map (fun st =>
    ⟨r.job_id, r.video_path, r.video_name, r.languages, r.enable_sdh,
     st, r.created_at, r.updated_at, r.completed_at, r.error, r.metadata,
     r.output_dir⟩)

/-- A file in the jobs directory: either a well-formed JSON job record,
or a file whose bytes `json.load` cannot parse. -/
inductive FileContent where
  | jsonFile (r : JobRecord)
  | corruptFile
deriving Repr, DecidableEq

/-- The jobs directory, as an ordered list of (file name, content);
the order is the directory iteration order seen by `glob`. -/
abbrev FileSys := List (String × FileContent)

/-- First entry with the given name. -/
def fsLookup : FileSys → String → Option FileContent
  | [], _ => none
  | p :: fs, n => if p.1 = n then some p.2 else fsLookup fs n

/-- Delete a file (no-op when absent), as `Path.unlink`. -/
def fsErase : FileSys → String → FileSys
  | [], _ => []
  | p :: fs, n => if p.1 = n then fsErase fs n else p :: fsErase fs n

/-- Create or overwrite a file. -/
def fsInsert (fs : FileSys) (name : String) (c : FileContent) : FileSys :=
  fsErase fs name ++ [(name, c)]

/-- Embedding of `Path.rename` (overwriting, no-op when the source is absent). -/
def fsRename (fs : FileSys) (src dst : String) : FileSys :=
  match fsLookup fs src with
  | none => fs
  | some c => fsInsert (fsErase fs src) dst c

/-- Embedding of `StateManager.save_job` (state_manager.py lines 82-109): set
`updated_at = now`; rename a pre-existing `{id}.json` to
`{id}.json.bak`; attempt the write (`writeOk` abstracts whether
`json.dump` succeeds); on success unlink the backup, on failure restore
the backup over `{id}.json` and re-raise.  Returns the resulting
directory, the success flag, and the mutated job. -/
def saveJob (fs : FileSys) (j : JobState) (now : ℚ) (writeOk : Bool) :
    FileSys × Bool × JobState :=
  let j1 := { j with updated_at := now }
  let f := j.job_id ++ ".json"
  let bak := j.job_id ++ ".json.bak"
  let fs1 := if (fsLookup fs f).isSome then fsRename fs f bak else fs
  if writeOk then
    (fsErase (fsInsert fs1 f (FileContent.jsonFile (toDict j1))) bak, true, j1)
  else
    (if (fsLookup fs1 bak).isSome then fsRename fs1 bak f else fs1, false, j1)

/-- All but the last `n` characters, used to strip the `.json` suffix. -/
def dropLastN (l : List Char) (n : ℕ) : List Char :=
  l.take (l.length - n)

/-- Whether a file name matches the glob pattern `*{pat}*.json`
(state_manager.py line 117): the name decomposes as
`stem ++ ".json"` with `pat` occurring inside `stem`. -/
def globMatch (name pat : String) : Bool :=
  decide (".json".data <:+ name.data) &&
    decide (pat.data <:+: dropLastN name.data 5)

/-- Fallback `list(self.state_dir.glob(f"*{job_id}*.json"))[0]` of
state_manager.py lines 117-119: the first directory entry matching the
glob pattern. -/
def findMatch : FileSys → String → Option (String × FileContent)
  | [], _ => none
  | p :: fs, job_id =>
    if globMatch p.1 job_id then some p else findMatch fs job_id

/-- File-resolution step of `StateManager.load_job`
(state_manager.py lines 113-121): the exact `{id}.json` when present,
else the first directory entry matching `*{id}*.json`, else nothing. -/
def resolveJobFile (fs : FileSys) (job_id : String) :
    Option (String × FileContent) :=
  match fsLookup fs (job_id ++ ".json") with
  | some c => some (job_id ++ ".json", c)
  | none => findMatch fs job_id

/-- The `try` body of `StateManager.load_job` (lines 123-127):
`json.load` then `JobState.from_dict`; `none` models any raised
parse error. -/
def parseJobFile : FileContent → Option JobState
  | FileContent.jsonFile r => fromDict r
  | FileContent.corruptFile => none

/-- Embedding of `StateManager.load_job` (state_manager.py lines 111-130). -/
def loadJob (fs : FileSys) (job_id : String) : Option JobState :=
  (resolveJobFile fs job_id).bind (fun p => parseJobFile p.2)

/-- Embedding of `StateManager.load_job` together with its console output: the
boolean records whether the `Error loading job ...` message of
line 129 was printed. -/
def loadJobLogged (fs : FileSys) (job_id : String) :
    Option JobState × Bool :=
  match resolveJobFile fs job_id with
  | none => (none, false)
  | some p =>
    match parseJobFile p.2 with
    | some j => (some j, false)
    | none => (none, true)

/- ## Pipeline orchestration: `src/subtitle_processor.py` -/

/-- The ten pipeline stages of `SubtitleProcessor.process_job`
(subtitle_processor.py lines 197-208), in list order. -/
def pipelineStages : List ProcessingStage :=
  [ProcessingStage.validating, ProcessingStage.analyzing,
   ProcessingStage.chunking, ProcessingStage.connecting,
   ProcessingStage.uploading, ProcessingStage.initializing,
   ProcessingStage.generating, ProcessingStage.downloading,
   ProcessingStage.merging, ProcessingStage.finalizing]

/-- The stage loop of `SubtitleProcessor.process_job`
(subtitle_processor.py lines 225-255).  A stage `k` is skipped when
`job.current_stage.value >= k.value` (line 227; the `stage != FAILED`
conjunct is vacuous on the pipeline list).  An executed stage first
persists `current_stage = k` (lines 236-238), then runs its handler,
abstracted to its outcome `handler k`; on an exception the job is
persisted with `current_stage = FAILED` and `error` set
(lines 250-252) and the run stops (the non-interactive exit of
`handle_error`).  Returns the final persisted job and the list of
executed stages. -/
def runStages (handler : ProcessingStage → Bool) (j : JobState) :
    List ProcessingStage → JobState × List ProcessingStage
  | [] => (j, [])
  | k :: rest =>
    if stageValue k ≤ stageValue j.current_stage then
      runStages handler j rest
    else
      let j1 := { j with current_stage := k }
      if handler k then
        let r := runStages handler j1 rest
        (r.1, k :: r.2)
      else
        ({ j1 with current_stage := ProcessingStage.failed,
                   error := some "stage error" }, [k])

/-- Embedding of `SubtitleProcessor.process_job` (subtitle_processor.py
lines 195-278): run the stage loop, then, when the job did not fail,
mark it `COMPLETED` with `completed_at` set (lines 258, 276-278). -/
def processJob (handler : ProcessingStage → Bool) (j : JobState)
    (now : ℚ) : JobState × List ProcessingStage :=
  let r := runStages handler j pipelineStages
  if r.1.current_stage = ProcessingStage.failed then r
  else ({ r.1 with current_stage := ProcessingStage.completed,
                   completed_at := some now }, r.2)

/- ## Video chunking: `src/video_chunker.py` -/

/-- The chunk count of `VideoChunker.analyze_video`
(video_chunker.py line 32):
`total_chunks = int((duration + self.chunk_duration - 1) // self.chunk_duration)`.
Python float floor-division is the mathematical floor. -/
def totalChunks (duration chunkDuration : ℚ) : ℤ :=
  ⌊(duration + chunkDuration - 1) / chunkDuration⌋

/-- One planned cut of `VideoChunker.split_video`. -/
structure ChunkPlan where
  index : ℕ
  start : ℚ
  duration : ℚ
deriving Repr, DecidableEq

/-- The cut plan of `VideoChunker.split_video` (video_chunker.py
lines 70-77): chunk `i` starts at `i * chunk_duration`; every chunk
lasts `chunk_duration` except the last, which lasts
`total_duration - start_time`. -/
def splitVideo (duration chunkDuration : ℚ) : List ChunkPlan :=
  let n := totalChunks duration chunkDuration
  (List.range n.toNat).map (fun i =>
    ⟨i, i * chunkDuration,
     if (i : ℤ) = n - 1 then duration - i * chunkDuration
     else chunkDuration⟩)

/- ## Subtitle merging: `src/subtitle_merger.py` -/

/-- One parsed SRT entry as produced by
`SubtitleMerger._parse_srt_content` (subtitle_merger.py lines 191-238),
with the timestamps already converted to seconds by
`_timestamp_to_seconds` (lines 240-261). -/
structure SrtEntry where
  number : ℕ
  startSec : ℚ
  endSec : ℚ
  text : String
deriving Repr, DecidableEq

/-- One element of the `subtitles` input of
`SubtitleMerger._merge_srt_files`: `chunkNumber` is
`_extract_chunk_number(subtitle['chunk'])` (lines 119-124, 159) and
`entries` is `_parse_srt_content` of its content (line 152). -/
structure ChunkSubtitle where
  chunkNumber : ℕ
  entries : List SrtEntry
deriving Repr, DecidableEq

/-- One renumbered entry of the merged track (subtitle_merger.py
line 181): `seq` is the value of `subtitle_counter` written in front of
the block. -/
structure MergedEntry where
  seq : ℕ
  startSec : ℚ
  endSec : ℚ
  text : String
deriving Repr, DecidableEq

/-- The inner entry loop of `_merge_srt_files` (subtitle_merger.py
lines 167-183): offset both timestamps and emit the entry under the
running `subtitle_counter`. -/
def offsetEntries (off : ℚ) : ℕ → List SrtEntry → List MergedEntry
  | _, [] => []
  | counter, e :: es =>
    ⟨counter, e.startSec + off, e.endSec + off, e.text⟩ ::
      offsetEntries off (counter + 1) es

/-- The outer subtitle loop of `_merge_srt_files` (subtitle_merger.py
lines 134-183): each chunk's entries are offset by
`chunk_duration * chunk_number` (line 162) and appended under the
running counter.  Inputs with no parsed entries are skipped
(lines 154-156), which leaves both output and counter unchanged, so
they are represented by an empty `entries` list. -/
def mergeGo (chunkDuration : ℚ) : ℕ → List ChunkSubtitle → List MergedEntry
  | _, [] => []
  | counter, s :: rest =>
    offsetEntries (chunkDuration * s.chunkNumber) counter s.entries ++
      mergeGo chunkDuration (counter + s.entries.length) rest

/-- Embedding of `SubtitleMerger._merge_srt_files` (subtitle_merger.py
lines 126-189) at the entry level: the `subtitle_counter` starts at 1
(line 129).  The function is total: no timing invariant is checked and
no merge error is ever raised on the way. -/
def mergeSrtFiles (chunkDuration : ℚ) (subs : List ChunkSubtitle) :
    List MergedEntry :=
  mergeGo chunkDuration 1 subs

/- ## Generating stage: `src/production_processor.py` and
`src/fallback_handler.py` -/

/-- The work items of the Generating stage
(production_processor.py line 242):
`[(chunk, lang) for chunk in upload_result for lang in languages]`. -/
def generationItems (chunks langs : List String) : List (String × String) :=
  chunks.flatMap (fun c => langs.map (fun l => (c, l)))

/-- Embedding of `RobustProcessor.process_batch_with_fallback` (fallback_handler.py
lines 317-356).  Each item is processed through
`process_with_fallback(..., required=False)` (lines 296-315), which
yields the operation's result on success and `None` when it raised;
`res i x` abstracts that per-item outcome.  An item counts as a success
when its result is not `None` (line 346).  The per-item loop of
lines 331-347, accumulating results in item order. -/
def batchResults (res : ℕ → α → Option β) : ℕ → List α → List (Option β)
  | _, [] => []
  | i, x :: xs => res i x :: batchResults res (i + 1) xs

/-- Embedding of `RobustProcessor.process_batch_with_fallback` (fallback_handler.py
lines 317-356), continued: results in item order, and
`success_rate = successes / len(items)` with `0` for an empty batch
(line 349). -/
def processBatchWithFallback (items : List α) (res : ℕ → α → Option β) :
    List (Option β) × ℚ :=
  let results := batchResults res 0 items
  let successes := results.countP (fun r => r.isSome)
  (results,
   if items.length = 0 then 0 else (successes : ℚ) / items.length)

/-- The Generating-stage acceptance decision
(production_processor.py line 251): `success_rate >= 0.3` puts
`'generation'` into `successful_stages`, anything below puts it into
`failed_stages`. -/
def generationStageOk (rate : ℚ) : Bool :=
  decide ((3 : ℚ) / 10 ≤ rate)

/- ## Fixtures and specification-side definitions used by the theorems -/

/-- Specification-side view of the merge: the entries of all chunks in
input order, each offset by `chunk_duration * chunk_number`, before
renumbering.  Used to compare `mergeSrtFiles` against the specified
offset-and-concatenate behaviour. -/
def mergedSpecEntries (chunkDuration : ℚ) (subs : List ChunkSubtitle) :
    List (ℚ × ℚ × String) :=
  subs.flatMap (fun s => s.entries.map (fun e =>
    (e.startSec + chunkDuration * s.chunkNumber,
     e.endSec + chunkDuration * s.chunkNumber, e.text)))

/-- Total number of parsed entries across all chunk subtitles. -/
def entriesTotal (subs : List ChunkSubtitle) : ℕ :=
  (subs.map (fun s => s.entries.length)).sum

/-- A freshly created job, as built by `StateManager.create_job`. -/
def sampleJob : JobState :=
  ⟨"job_1", "video.mp4", "video", ["eng"], false, ProcessingStage.created,
   0, 0, none, none, [], none⟩

/-- A persisted job after a fatal failure: `current_stage = FAILED`,
`error` populated (subtitle_processor.py lines 250-252). -/
def failedJob : JobState :=
  ⟨"job_1", "video.mp4", "video", ["eng"], false, ProcessingStage.failed,
   0, 0, none, some "stage error", [], none⟩

/-- A handler profile whose only failing stage is `GENERATING`. -/
def failAtGenerating (k : ProcessingStage) : Bool :=
  decide (k ≠ ProcessingStage.generating)

/-- A job whose id strictly contains the string `"7"`. -/
def wideJob : JobState :=
  ⟨"job_7_abc", "v.mp4", "v", ["eng"], false, ProcessingStage.created,
   0, 0, none, none, [], none⟩

/-- A jobs directory holding only `wideJob`'s record. -/
def wideFs : FileSys :=
  [("job_7_abc.json", FileContent.jsonFile (toDict wideJob))]

/-- A jobs directory whose only file for `"j1"` is unparseable. -/
def corruptFs : FileSys := [("j1.json", FileContent.corruptFile)]

/-- Two chunk subtitles whose merged entries overlap by 500 ms, plus a
zero-duration entry: chunk 0 carries an entry ending at 61 s, chunk 1
carries an entry starting at 0.5 s in-chunk (60.5 s after offsetting)
and an entry of zero duration. -/
def overlappingSubs : List ChunkSubtitle :=
  [⟨0, [⟨1, 0, 61, "a"⟩]⟩, ⟨1, [⟨1, 1/2, 3/2, "b"⟩, ⟨2, 2, 2, "c"⟩]⟩]

/-- A per-item outcome profile in which exactly the first three items
succeed. -/
def threeOfTenOutcomes (i : ℕ) (_ : String × String) : Option String :=
  if i < 3 then some "srt" else none

/- ## Theorems -/

theorem length_generationItems (chunks langs : List String) :
    (generationItems chunks langs).length = chunks.length * langs.length := by
  induction chunks with
  | nil => simp [generationItems]
  | cons c cs ih =>
    simp only [generationItems, List.flatMap_cons, List.length_append,
      List.length_map, List.length_cons] at ih ⊢
    rw [ih]
    ring

/-- C6: the Generating stage computes `success_rate = successes / (|chunks| * |languages|)`
over the chunk-times-language work items, and accepts the stage exactly
when the rate is at least the 0.3 threshold (so a rate equal to the
threshold succeeds and a smaller one fails). -/
theorem c6_generating_threshold (chunks langs : List String)
    (res : ℕ → String × String → Option String)
    (hne : chunks.length * langs.length ≠ 0) :
    (processBatchWithFallback (generationItems chunks langs) res).2 =
      (((processBatchWithFallback (generationItems chunks langs) res).1.countP
          (fun r => r.isSome) : ℕ) : ℚ) /
        ((chunks.length * langs.length : ℕ) : ℚ)
    ∧ (generationStageOk
        (processBatchWithFallback (generationItems chunks langs) res).2 = true ↔
        3 * (chunks.length * langs.length) ≤
          10 * (processBatchWithFallback (generationItems chunks langs) res).1.countP
            (fun r => r.isSome)) := by
  have hlen := length_generationItems chunks langs
  have hpos : 0 < chunks.length * langs.length := Nat.pos_of_ne_zero hne
  have ht : (0 : ℚ) < ((chunks.length * langs.length : ℕ) : ℚ) := by
    exact_mod_cast hpos
  constructor
  · simp only [processBatchWithFallback, hlen, if_neg hne]
  · simp only [processBatchWithFallback, hlen, generationStageOk,
      decide_eq_true_eq, if_neg hne]
    rw [le_div_iff₀ ht]
    constructor <;> intro h
    · have h10 : (3 : ℚ) * ((chunks.length * langs.length : ℕ) : ℚ) ≤
          10 * (((batchResults res 0 (generationItems chunks langs)).countP
            (fun r => r.isSome) : ℕ) : ℚ) := by linarith
      exact_mod_cast h10
    · have h10 : ((3 * (chunks.length * langs.length) : ℕ) : ℚ) ≤
          ((10 * (batchResults res 0 (generationItems chunks langs)).countP
            (fun r => r.isSome) : ℕ) : ℚ) := by exact_mod_cast h
      push_cast at h10 ⊢
      linarith

/-- Witness for C6 at ten work items of which exactly three succeed:
the rate is exactly the threshold and the stage is accepted. -/
theorem c6_generating_threshold_w :
    generationStageOk
      (processBatchWithFallback
        (generationItems ["c0", "c1"] ["l0", "l1", "l2", "l3", "l4"])
        threeOfTenOutcomes).2 = true :=
  ((c6_generating_threshold ["c0", "c1"] ["l0", "l1", "l2", "l3", "l4"]
    threeOfTenOutcomes (by decide)).2).mpr (by decide)

/-- C8: for every rate limiter, a call is admitted with delay `0`
(recording its timestamp) iff fewer than `calls_per_minute` recorded
timestamps lie within the last 60 seconds; otherwise the computed delay
is `60 - (now - oldest) + 0.1` and nothing is recorded; and the
per-service limits are `vertex_ai` (model) = 30, `storage` (store)
= 100, `default` = 60 calls per minute. -/
theorem c8_rate_limiter (rl : RateLimiter) (now : ℚ)
    (hq : 1 ≤ rl.callsPerMinute) :
    ((rlAcquire rl now).1 = 0 ↔
      (rl.calls.filter (fun t => decide (now - t < 60))).length <
        rl.callsPerMinute)
    ∧ ((rl.calls.filter (fun t => decide (now - t < 60))).length <
        rl.callsPerMinute →
        (rlAcquire rl now).2.calls =
          rl.calls.filter (fun t => decide (now - t < 60)) ++ [now])
    ∧ (rl.callsPerMinute ≤
        (rl.calls.filter (fun t => decide (now - t < 60))).length →
        (rlAcquire rl now).1 =
          60 - (now -
            (rl.calls.filter (fun t => decide (now - t < 60))).min?.getD 0)
            + 1 / 10
        ∧ (rlAcquire rl now).2.calls =
            rl.calls.filter (fun t => decide (now - t < 60)))
    ∧ rateLimiters = [("vertex_ai", 30), ("storage", 100), ("default", 60)] := by
  by_cases hlen : rl.callsPerMinute ≤
      (rl.calls.filter (fun t => decide (now - t < 60))).length
  · obtain ⟨a, ha⟩ : ∃ a,
        (rl.calls.filter (fun t => decide (now - t < 60))).min? = some a := by
      cases hmin : (rl.calls.filter (fun t => decide (now - t < 60))).min? with
      | some a => exact ⟨a, rfl⟩
      | none =>
        rw [List.min?_eq_none_iff] at hmin
        rw [hmin] at hlen
        simp at hlen
        omega
    have hmem : a ∈ rl.calls.filter (fun t => decide (now - t < 60)) :=
      List.min?_mem (fun x y => min_choice x y) ha
    have hrecent : now - a < 60 := by
      have := (List.mem_filter.mp hmem).2
      exact of_decide_eq_true this
    have hdelay : (0 : ℚ) < 60 - (now - a) + 1 / 10 := by linarith
    have hout : rlAcquire rl now =
        (60 - (now - a) + 1 / 10,
         ⟨rl.callsPerMinute, rl.calls.filter (fun t => decide (now - t < 60))⟩) := by
      simp only [rlAcquire, if_pos hlen, ha, Option.getD_some]
      rw [max_eq_right (le_of_lt hdelay)]
    refine ⟨?_, ?_, ?_, rfl⟩
    · rw [hout]
      simp only [not_lt.mpr hlen, iff_false]
      intro h0
      rw [h0] at hdelay
      exact lt_irrefl 0 hdelay
    · intro hc
      exact absurd hc (not_lt.mpr hlen)
    · intro _
      rw [hout, ha]
      exact ⟨rfl, rfl⟩
  · have hlt := lt_of_not_le hlen
    have hout : rlAcquire rl now =
        (0, ⟨rl.callsPerMinute,
          rl.calls.filter (fun t => decide (now - t < 60)) ++ [now]⟩) := by
      simp only [rlAcquire, if_neg hlen]
    refine ⟨?_, ?_, ?_, rfl⟩
    · rw [hout]
      simp [hlt]
    · intro _
      rw [hout]
    · intro hc
      exact absurd hc hlen

/-- Witness for C8: a fresh `vertex_ai`-sized limiter admits a call at
time 0 with no delay. -/
theorem c8_rate_limiter_w : (rlAcquire ⟨30, ([] : List ℚ)⟩ 0).1 = 0 :=
  (c8_rate_limiter ⟨30, ([] : List ℚ)⟩ 0 (by decide)).1.mpr (by decide)

theorem calculateDelay_min_jitter (cfg : RetryConfig)
    (hb : 0 < cfg.baseDelay) (hc : 0 < cfg.maxDelay)
    (he : 0 < cfg.exponentialBase)
    (hm : cfg.backoffMultiplier = 1) (hj : cfg.jitter = true)
    (n : ℤ) (hn : 1 ≤ n) (u : ℚ) (hu0 : 0 ≤ u) (hu1 : u ≤ 1 / 10) :
    ∃ v, 0 ≤ v ∧ v ≤ 1 / 10 ∧
      calculateDelay cfg n u =
        min (cfg.baseDelay * cfg.exponentialBase ^ (n - 1).toNat)
          cfg.maxDelay * (1 + v) := by
  set k := (n - 1).toNat with hk
  set r := cfg.baseDelay * cfg.exponentialBase ^ k with hr
  have hrpos : 0 < r := mul_pos hb (pow_pos he k)
  have hnle : ¬ (n ≤ 0) := by omega
  have hcd : calculateDelay cfg n u = min (r + r * u) cfg.maxDelay := by
    simp only [calculateDelay, if_neg hnle, hm, hj, mul_one, if_true, hr, hk]
  set m := min r cfg.maxDelay with hmdef
  have hmpos : 0 < m := lt_min hrpos hc
  have h1 : m ≤ min (r + r * u) cfg.maxDelay :=
    le_min (le_trans (min_le_left _ _) (by nlinarith)) (min_le_right _ _)
  have h2 : min (r + r * u) cfg.maxDelay ≤ m * (1 + 1 / 10) := by
    rcases le_total r cfg.maxDelay with hrc | hrc
    · have hm1 : m = r := min_eq_left hrc
      calc min (r + r * u) cfg.maxDelay ≤ r + r * u := min_le_left _ _
        _ ≤ r * (1 + 1 / 10) := by nlinarith
        _ = m * (1 + 1 / 10) := by rw [hm1]
    · have hm1 : m = cfg.maxDelay := min_eq_right hrc
      calc min (r + r * u) cfg.maxDelay ≤ cfg.maxDelay := min_le_right _ _
        _ = m := hm1.symm
        _ ≤ m * (1 + 1 / 10) := by nlinarith
  refine ⟨min (r + r * u) cfg.maxDelay / m - 1, ?_, ?_, ?_⟩
  · rw [sub_nonneg, le_div_iff₀ hmpos, one_mul]
    exact h1
  · rw [sub_le_iff_le_add, div_le_iff₀ hmpos]
    nlinarith
  · rw [hcd]
    have hsimp : 1 + (min (r + r * u) cfg.maxDelay / m - 1) =
        min (r + r * u) cfg.maxDelay / m := by ring
    rw [hsimp, ← mul_div_assoc, mul_div_cancel_left₀ _ (ne_of_gt hmpos)]

/-- C7: for every named retry profile and attempt `n ≥ 1`, the computed
backoff delay equals `min(base * 2^(n-1), cap) * (1 + v)` for some
jitter fraction `v` in `[0, 0.1]`, and the profiles are
`default(3 attempts, 1s, 60s)`, `network(5, 2s, 120s)`,
`storage(4, 1.5s, 90s)`, `ai(3, 3s, 180s)`, `quota(2, 60s, 300s)`,
all with factor 2. -/
theorem c7_backoff_profiles (name : String)
    (hname : name ∈ ["default", "network", "storage", "ai", "quota"])
    (n : ℤ) (hn : 1 ≤ n) (u : ℚ) (hu0 : 0 ≤ u) (hu1 : u ≤ 1 / 10) :
    (∃ v, 0 ≤ v ∧ v ≤ 1 / 10 ∧
      calculateDelay (getRetryConfig name) n u =
        min ((getRetryConfig name).baseDelay * 2 ^ (n - 1).toNat)
          (getRetryConfig name).maxDelay * (1 + v))
    ∧ getRetryConfig "default" = ⟨3, 1, 60, 2, true, 1⟩
    ∧ getRetryConfig "network" = ⟨5, 2, 120, 2, true, 1⟩
    ∧ getRetryConfig "storage" = ⟨4, 3 / 2, 90, 2, true, 1⟩
    ∧ getRetryConfig "ai" = ⟨3, 3, 180, 2, true, 1⟩
    ∧ getRetryConfig "quota" = ⟨2, 60, 300, 2, true, 1⟩ := by
  refine ⟨?_, rfl, rfl, rfl, rfl, rfl⟩
  simp only [List.mem_cons, List.mem_singleton, List.not_mem_nil,
    or_false] at hname
  rcases hname with rfl | rfl | rfl | rfl | rfl
  · rw [show getRetryConfig "default" = ⟨3, 1, 60, 2, true, 1⟩ from rfl]
    exact calculateDelay_min_jitter _ (by norm_num) (by norm_num)
      (by norm_num) rfl rfl n hn u hu0 hu1
  · rw [show getRetryConfig "network" = ⟨5, 2, 120, 2, true, 1⟩ from rfl]
    exact calculateDelay_min_jitter _ (by norm_num) (by norm_num)
      (by norm_num) rfl rfl n hn u hu0 hu1
  · rw [show getRetryConfig "storage" = ⟨4, 3 / 2, 90, 2, true, 1⟩ from rfl]
    exact calculateDelay_min_jitter _ (by norm_num) (by norm_num)
      (by norm_num) rfl rfl n hn u hu0 hu1
  · rw [show getRetryConfig "ai" = ⟨3, 3, 180, 2, true, 1⟩ from rfl]
    exact calculateDelay_min_jitter _ (by norm_num) (by norm_num)
      (by norm_num) rfl rfl n hn u hu0 hu1
  · rw [show getRetryConfig "quota" = ⟨2, 60, 300, 2, true, 1⟩ from rfl]
    exact calculateDelay_min_jitter _ (by norm_num) (by norm_num)
      (by norm_num) rfl rfl n hn u hu0 hu1

/-- Witness for C7 at the `default` profile, first retry, zero jitter. -/
theorem c7_backoff_profiles_w :
    ∃ v, 0 ≤ v ∧ v ≤ 1 / 10 ∧
      calculateDelay (getRetryConfig "default") 1 0 =
        min ((getRetryConfig "default").baseDelay * 2 ^ ((1 : ℤ) - 1).toNat)
          (getRetryConfig "default").maxDelay * (1 + v) :=
  (c7_backoff_profiles "default" (by decide) 1 (by norm_num) 0 (by norm_num)
    (by norm_num)).1

/-- C5: after 5 consecutive failures (the default threshold) a breaker
is `OPEN` with the last failure time recorded; a call within the 60 s
recovery timeout is rejected without invoking the protected function
and leaves the breaker unchanged; once the timeout has elapsed the next
call proceeds exactly as in the `HALF_OPEN` state (and does invoke the
function), where a success yields `CLOSED` with the failure counter
reset and a failure yields `OPEN` with the failure time updated to
now. -/
theorem c5_circuit_breaker (t1 t2 t3 t4 t5 t t' : ℚ) (b : Bool)
    (hlt : t - t5 < 60) (hge : 60 ≤ t' - t5) :
    cbApplyFailures initCircuitBreaker [t1, t2, t3, t4, t5] =
      ⟨5, 60, 5, some t5, CBState.opened⟩
    ∧ cbCall ⟨5, 60, 5, some t5, CBState.opened⟩ t b =
        (CBResult.rejected, ⟨5, 60, 5, some t5, CBState.opened⟩, false)
    ∧ cbCall ⟨5, 60, 5, some t5, CBState.opened⟩ t' b =
        cbCall ⟨5, 60, 5, some t5, CBState.halfOpen⟩ t' b
    ∧ (cbCall ⟨5, 60, 5, some t5, CBState.opened⟩ t' b).2.2 = true
    ∧ cbCall ⟨5, 60, 5, some t5, CBState.opened⟩ t' true =
        (CBResult.ok, ⟨5, 60, 0, some t5, CBState.closed⟩, true)
    ∧ cbCall ⟨5, 60, 5, some t5, CBState.opened⟩ t' false =
        (CBResult.failed, ⟨5, 60, 6, some t', CBState.opened⟩, true) := by
  have hres : shouldAttemptReset ⟨5, 60, 5, some t5, CBState.opened⟩ t
      = false := by
    simp only [shouldAttemptReset, decide_eq_false_iff_not, not_le]
    linarith
  have hres' : shouldAttemptReset ⟨5, 60, 5, some t5, CBState.opened⟩ t'
      = true := by
    simp only [shouldAttemptReset, decide_eq_true_eq]
    linarith
  refine ⟨rfl, ?_, ?_, ?_, ?_, ?_⟩
  · simp [cbCall, hres]
  · simp [cbCall, hres', cbOnSuccess, cbOnFailure]
  · cases b <;> simp [cbCall, hres', cbOnSuccess, cbOnFailure]
  · simp [cbCall, hres', cbOnSuccess]
  · simp [cbCall, hres', cbOnFailure]

/-- Witness for C5: failures at times 0..4, a rejected call at 30, a
permitted call at 70. -/
theorem c5_circuit_breaker_w :
    cbApplyFailures initCircuitBreaker [0, 1, 2, 3, 4] =
      ⟨5, 60, 5, some 4, CBState.opened⟩
    ∧ cbCall ⟨5, 60, 5, some 4, CBState.opened⟩ 30 true =
        (CBResult.rejected, ⟨5, 60, 5, some 4, CBState.opened⟩, false) :=
  ⟨(c5_circuit_breaker 0 1 2 3 4 30 70 true (by norm_num) (by norm_num)).1,
   (c5_circuit_breaker 0 1 2 3 4 30 70 true (by norm_num) (by norm_num)).2.1⟩

/-- C3 (counterexample): for the 60.5-second video and 60-second chunks
the analyzer plans `int((60.5 + 60 - 1) // 60) = 1` chunk, not
`ceil(60.5 / 60) = 2`, and the single cut covers the whole 60.5 s. -/
theorem c3_counterexample :
    totalChunks (121 / 2 : ℚ) 60 = 1
    ∧ ⌈(121 / 2 : ℚ) / 60⌉ = 2
    ∧ splitVideo (121 / 2 : ℚ) 60 = [⟨0, 0, 121 / 2⟩] := by
  have h1 : totalChunks (121 / 2 : ℚ) 60 = 1 := by
    rw [totalChunks]
    rw [Int.floor_eq_iff]
    constructor <;> norm_num
  refine ⟨h1, ?_, ?_⟩
  · rw [Int.ceil_eq_iff]
    constructor <;> norm_num
  · simp only [splitVideo, h1, Int.toNat_one,
      show List.range 1 = [0] from rfl, List.map_cons, List.map_nil,
      Nat.cast_zero]
    norm_num

theorem totalChunks_int (a b : ℕ) (hb : 1 ≤ b) :
    totalChunks (a : ℚ) (b : ℚ) = ⌈(a : ℚ) / (b : ℚ)⌉ := by
  have hbq : (0 : ℚ) < b := by exact_mod_cast hb
  set z := ⌈(a : ℚ) / b⌉ with hz
  have hzlt : (z - 1 : ℤ) < ⌈(a : ℚ) / b⌉ := by omega
  have h1 : ((z - 1 : ℤ) : ℚ) < (a : ℚ) / b := Int.lt_ceil.mp hzlt
  have h1q : ((z : ℚ) - 1) * b < a := by
    rw [← lt_div_iff₀ hbq]
    push_cast at h1
    linarith
  have hint1 : (z - 1) * (b : ℤ) < a := by exact_mod_cast h1q
  have hint2 : (z - 1) * (b : ℤ) + 1 ≤ a := hint1
  have hq : ((z : ℚ) - 1) * b + 1 ≤ a := by exact_mod_cast hint2
  have h2 : (a : ℚ) ≤ z * b := by
    rw [← div_le_iff₀ hbq]
    exact Int.le_ceil _
  rw [totalChunks]
  rw [Int.floor_eq_iff]
  constructor
  · rw [le_div_iff₀ hbq]
    linarith
  · rw [div_lt_iff₀ hbq]
    linarith

/-- C3 (amended): the analyzer plans
`total_chunks = floor((D + L - 1) / L)` chunks; this always lies within
one of `ceil(D / L)` and agrees with `ceil(D / L)` for integer inputs
(but is one less when the fractional part of `D / L` lies strictly
between `0` and `1 / L`, as the counterexample shows); the chunker cuts
chunk `i` at start `i * L` with duration `L` for all but the last
planned chunk, whose duration is `D - (n - 1) * L`. -/
theorem c3_amended (D L : ℚ) (hL : 1 ≤ L) :
    (totalChunks D L = ⌊(D + L - 1) / L⌋
    ∧ ⌈D / L⌉ - 1 ≤ totalChunks D L
    ∧ totalChunks D L ≤ ⌈D / L⌉)
    ∧ (∀ a b : ℕ, 1 ≤ b → totalChunks (a : ℚ) (b : ℚ) = ⌈(a : ℚ) / (b : ℚ)⌉)
    ∧ (splitVideo D L).length = (totalChunks D L).toNat
    ∧ ∀ i (hi : i < (splitVideo D L).length),
        ((splitVideo D L).get ⟨i, hi⟩).index = i
        ∧ ((splitVideo D L).get ⟨i, hi⟩).start = i * L
        ∧ (i + 1 < (splitVideo D L).length →
            ((splitVideo D L).get ⟨i, hi⟩).duration = L)
        ∧ (i + 1 = (splitVideo D L).length →
            ((splitVideo D L).get ⟨i, hi⟩).duration = D - i * L) := by
  have hLpos : (0 : ℚ) < L := by linarith
  have hy : (D + L - 1) / L = D / L + 1 - 1 / L := by
    field_simp
  have hlen : (splitVideo D L).length = (totalChunks D L).toNat := by
    simp [splitVideo]
  refine ⟨⟨rfl, ?_, ?_⟩, totalChunks_int, hlen, ?_⟩
  · rw [totalChunks, Int.le_floor, hy]
    push_cast
    have hc := Int.ceil_lt_add_one (D / L)
    have hinv : 0 < 1 / L := by positivity
    have hinv1 : 1 / L ≤ 1 := by
      rw [div_le_one hLpos]
      exact hL
    linarith
  · rw [totalChunks]
    have : ⌊(D + L - 1) / L⌋ < ⌈D / L⌉ + 1 := by
      rw [Int.floor_lt, hy]
      push_cast
      have hc := Int.le_ceil (D / L)
      have hinv : 0 < 1 / L := by positivity
      linarith
    omega
  · intro i hi
    have hi' : i < (totalChunks D L).toNat := by rw [← hlen]; exact hi
    have hget : (splitVideo D L).get ⟨i, hi⟩ =
        ⟨i, i * L,
         if (i : ℤ) = totalChunks D L - 1 then D - i * L else L⟩ := by
      simp [splitVideo, List.get_eq_getElem]
    rw [hget]
    refine ⟨rfl, rfl, ?_, ?_⟩
    · intro hlt
      rw [hlen] at hlt
      rw [if_neg]
      omega
    · intro heq
      rw [hlen] at heq
      rw [if_pos]
      omega

/-- Witness for C3 at the 125-second video with 60-second chunks. -/
theorem c3_amended_w :
    (splitVideo (125 : ℚ) 60).length = (totalChunks (125 : ℚ) 60).toNat :=
  (c3_amended 125 60 (by norm_num)).2.2.1

theorem offsetEntries_proj (off : ℚ) (c : ℕ) (es : List SrtEntry) :
    (offsetEntries off c es).map (fun e => (e.startSec, e.endSec, e.text)) =
      es.map (fun e => (e.startSec + off, e.endSec + off, e.text)) := by
  induction es generalizing c with
  | nil => rfl
  | cons e es ih => simp [offsetEntries, ih]

theorem offsetEntries_seqs (off : ℚ) (c : ℕ) (es : List SrtEntry) :
    (offsetEntries off c es).map (fun e => e.seq) =
      List.range' c es.length := by
  induction es generalizing c with
  | nil => rfl
  | cons e es ih => simp [offsetEntries, ih, List.range'_succ]

theorem mergeGo_proj (cd : ℚ) (subs : List ChunkSubtitle) (c : ℕ) :
    (mergeGo cd c subs).map (fun e => (e.startSec, e.endSec, e.text)) =
      mergedSpecEntries cd subs := by
  induction subs generalizing c with
  | nil => rfl
  | cons s rest ih =>
    simp [mergeGo, mergedSpecEntries, List.map_append, offsetEntries_proj,
      ih, List.flatMap_cons]

theorem mergeGo_seqs (cd : ℚ) (subs : List ChunkSubtitle) (c : ℕ) :
    (mergeGo cd c subs).map (fun e => e.seq) =
      List.range' c (entriesTotal subs) := by
  induction subs generalizing c with
  | nil => rfl
  | cons s rest ih =>
    have happ := List.range'_append c s.entries.length (entriesTotal rest) 1
    simp only [one_mul] at happ
    have hcons : entriesTotal (s :: rest) =
        s.entries.length + entriesTotal rest := by
      simp [entriesTotal]
    simp only [mergeGo, List.map_append, offsetEntries_seqs, ih]
    rw [hcons, Nat.add_comm s.entries.length (entriesTotal rest), ← happ]

/-- C1 (amended): the merged track is exactly the concatenation of all
chunks' entries in input order, each offset by
`chunk_duration * chunk_number`, renumbered densely from 1 (the list of
`seq` values is `[1, 2, ..., n]`).  No timing invariant is enforced:
entries pass through unchanged apart from the offset, so zero-duration
entries and overlaps of any size survive the merge and no merge error
is raised. -/
theorem c1_amended (cd : ℚ) (subs : List ChunkSubtitle) :
    (mergeSrtFiles cd subs).map (fun e => (e.startSec, e.endSec, e.text)) =
      mergedSpecEntries cd subs
    ∧ (mergeSrtFiles cd subs).map (fun e => e.seq) =
        List.range' 1 (mergeSrtFiles cd subs).length := by
  have h2 := mergeGo_seqs cd subs 1
  have hlen : (mergeSrtFiles cd subs).length = entriesTotal subs := by
    have hl := congrArg List.length h2
    simpa [mergeSrtFiles] using hl
  refine ⟨mergeGo_proj cd subs 1, ?_⟩
  rw [hlen]
  exact h2

/-- C1 (counterexample): merging the `overlappingSubs` input produces a
track whose first entry ends at 61 s while the second starts at 60.5 s
(a 500 ms overlap, far above the 10 ms micro-overlap bound) and whose
third entry has zero duration; the merge neither adjusts the overlap
nor rejects it as a merge error, contradicting the claimed output
invariants. -/
theorem c1_counterexample :
    mergeSrtFiles 60 overlappingSubs =
      [⟨1, 0, 61, "a"⟩, ⟨2, 121 / 2, 123 / 2, "b"⟩, ⟨3, 62, 62, "c"⟩]
    ∧ ¬ ((61 : ℚ) ≤ 121 / 2)
    ∧ (1 / 100 : ℚ) < 61 - 121 / 2
    ∧ ¬ ((62 : ℚ) < 62) := by
  refine ⟨?_, by norm_num, by norm_num, by norm_num⟩
  norm_num [mergeSrtFiles, mergeGo, overlappingSubs, offsetEntries]

theorem runStages_error_of_failed (h : ProcessingStage → Bool) :
    ∀ (l : List ProcessingStage) (j : JobState),
      (∀ k ∈ l, k ≠ ProcessingStage.failed) →
      j.current_stage ≠ ProcessingStage.failed →
      (runStages h j l).1.current_stage = ProcessingStage.failed →
      (runStages h j l).1.error = some "stage error" := by
  intro l
  induction l with
  | nil =>
    intro j _ hj hfail
    exact absurd hfail hj
  | cons k rest ih =>
    intro j hk hj hfail
    by_cases hskip : stageValue k ≤ stageValue j.current_stage
    · simp only [runStages, if_pos hskip] at hfail ⊢
      exact ih j (fun x hx => hk x (List.mem_cons_of_mem k hx)) hj hfail
    · by_cases hh : h k = true
      · simp only [runStages, if_neg hskip, hh, if_true] at hfail ⊢
        exact ih { j with current_stage := k }
          (fun x hx => hk x (List.mem_cons_of_mem k hx))
          (hk k (List.mem_cons_self k rest)) hfail
      · rw [Bool.not_eq_true] at hh
        simp only [runStages, if_neg hskip, hh, Bool.false_eq_true,
          if_false]

theorem runStages_trace (h : ProcessingStage → Bool)
    (hall : ∀ k, h k = true) :
    ∀ (l : List ProcessingStage) (j : JobState),
      l.Pairwise (fun a b => stageValue a < stageValue b) →
      (runStages h j l).2 =
        l.filter (fun k =>
          decide (stageValue j.current_stage < stageValue k)) := by
  intro l
  induction l with
  | nil => intro j _; rfl
  | cons k rest ih =>
    intro j hp
    have hp' := List.pairwise_cons.mp hp
    by_cases hskip : stageValue k ≤ stageValue j.current_stage
    · simp only [runStages, if_pos hskip]
      rw [ih j hp'.2, List.filter_cons,
        if_neg (by simp [not_lt.mpr hskip])]
    · have hj1 : stageValue j.current_stage < stageValue k :=
        lt_of_not_le hskip
      simp only [runStages, if_neg hskip, hall k, if_true]
      rw [ih { j with current_stage := k } hp'.2, List.filter_cons,
        if_pos (by simp [hj1])]
      have h1 : rest.filter
          (fun b => decide (stageValue k < stageValue b)) = rest :=
        List.filter_eq_self.mpr (fun b hb => by
          simpa using hp'.1 b hb)
      have h2 : rest.filter
          (fun b => decide (stageValue j.current_stage < stageValue b))
          = rest :=
        List.filter_eq_self.mpr (fun b hb => by
          simp only [decide_eq_true_eq]
          exact lt_trans hj1 (hp'.1 b hb))
      rw [h1, h2]

/-- C2 (amended): after a handler raises, the persisted job has
`current_stage = FAILED` and `error` populated; a re-run skips exactly
the stages `k` with persisted `current_stage.value >= k.value` — so a
job persisted at a mid-pipeline stage resumes after that stage, but a
failed job (`FAILED = -1`) skips nothing and replays the whole pipeline
from Validating rather than from the last successfully-completed
stage. -/
theorem c2_amended (h : ProcessingStage → Bool) (j : JobState) :
    ((∀ k, h k = true) →
      (runStages h j pipelineStages).2 =
        pipelineStages.filter (fun k =>
          decide (stageValue j.current_stage < stageValue k)))
    ∧ (j.current_stage ≠ ProcessingStage.failed →
        (runStages h j pipelineStages).1.current_stage =
          ProcessingStage.failed →
        (runStages h j pipelineStages).1.error = some "stage error") := by
  constructor
  · intro hall
    exact runStages_trace h hall pipelineStages j (by decide)
  · exact runStages_error_of_failed h pipelineStages j (by decide)

/-- Witness for C2 (amended): a failed job (stage value -1) replays all
ten stages, and a run that fails at Generating records the error. -/
theorem c2_amended_w :
    (runStages (fun _ => true) failedJob pipelineStages).2 = pipelineStages
    ∧ (runStages failAtGenerating sampleJob pipelineStages).1.error =
        some "stage error" := by
  constructor
  · have h1 := (c2_amended (fun _ => true) failedJob).1 (fun _ => rfl)
    rw [h1]
    decide
  · exact (c2_amended failAtGenerating sampleJob).2 (by decide) (by decide)

/-- C2 (counterexample): a job that completed Validating through
InitModel and failed at Generating is persisted with
`current_stage = FAILED` and `error` set; but because `FAILED = -1`,
re-running it executes all ten stages from Validating — including the
six already-completed ones — instead of replaying only the stages after
the highest completed one. -/
theorem c2_counterexample :
    (processJob failAtGenerating sampleJob 100).1.current_stage =
      ProcessingStage.failed
    ∧ (processJob failAtGenerating sampleJob 100).1.error =
        some "stage error"
    ∧ (processJob failAtGenerating sampleJob 100).2 =
        [ProcessingStage.validating, ProcessingStage.analyzing,
         ProcessingStage.chunking, ProcessingStage.connecting,
         ProcessingStage.uploading, ProcessingStage.initializing,
         ProcessingStage.generating]
    ∧ (processJob (fun _ => true)
        (processJob failAtGenerating sampleJob 100).1 200).2 =
        pipelineStages := by
  refine ⟨?_, ?_, ?_, ?_⟩ <;> decide

theorem fsLookup_erase (fs : FileSys) (n m : String) :
    fsLookup (fsErase fs n) m = if m = n then none else fsLookup fs m := by
  induction fs with
  | nil => simp [fsErase, fsLookup]
  | cons p fs ih =>
    by_cases hp : p.1 = n
    · simp only [fsErase, if_pos hp, ih, fsLookup]
      by_cases hm : m = n
      · simp [hm]
      · have hpm : p.1 ≠ m := by
          rw [hp]
          exact fun hh => hm hh.symm
        simp [hm, hpm]
    · simp only [fsErase, if_neg hp, fsLookup]
      by_cases hpm : p.1 = m
      · have hm : ¬ (m = n) := by
          rw [← hpm]
          exact hp
        simp [hpm, hm]
      · simp [hpm, ih]

theorem fsLookup_append_none (a b : FileSys) (m : String)
    (h : fsLookup a m = none) : fsLookup (a ++ b) m = fsLookup b m := by
  induction a with
  | nil => rfl
  | cons p a ih =>
    by_cases hp : p.1 = m
    · rw [fsLookup, if_pos hp] at h
      exact absurd h (by simp)
    · rw [fsLookup, if_neg hp] at h
      rw [List.cons_append, fsLookup, if_neg hp]
      exact ih h

theorem fsLookup_append_some (a b : FileSys) (m : String) (c : FileContent)
    (h : fsLookup a m = some c) : fsLookup (a ++ b) m = some c := by
  induction a with
  | nil => exact absurd h (by simp [fsLookup])
  | cons p a ih =>
    by_cases hp : p.1 = m
    · rw [fsLookup, if_pos hp] at h
      rw [List.cons_append, fsLookup, if_pos hp]
      exact h
    · rw [fsLookup, if_neg hp] at h
      rw [List.cons_append, fsLookup, if_neg hp]
      exact ih h

theorem fsLookup_insert (fs : FileSys) (n m : String) (c : FileContent) :
    fsLookup (fsInsert fs n c) m =
      if m = n then some c else fsLookup fs m := by
  rw [fsInsert]
  by_cases hm : m = n
  · rw [if_pos hm, fsLookup_append_none _ _ _ (by rw [fsLookup_erase, if_pos hm]),
      hm, fsLookup, if_pos rfl]
  · rw [if_neg hm]
    cases h : fsLookup fs m with
    | none =>
      rw [fsLookup_append_none _ _ _ (by rw [fsLookup_erase, if_neg hm]; exact h),
        fsLookup, if_neg (fun hh => hm hh.symm)]
      rfl
    | some c0 =>
      exact fsLookup_append_some _ _ _ _
        (by rw [fsLookup_erase, if_neg hm]; exact h)

theorem fsRename_eq_of_some (fs : FileSys) (src dst : String)
    (c : FileContent) (h : fsLookup fs src = some c) :
    fsRename fs src dst = fsInsert (fsErase fs src) dst c := by
  rw [fsRename, h]

theorem stageOfValue_stageValue (s : ProcessingStage) :
    stageOfValue (stageValue s) = some s := by
  cases s <;> rfl

theorem fromDict_toDict (j : JobState) : fromDict (toDict j) = some j := by
  simp [fromDict, toDict, stageOfValue_stageValue]

/-- C4: `save_job` sets `updated_at = now` and reports success; loading
the saved id returns exactly the saved job (round trip through
`to_dict`/`from_dict`); the `{id}.json.bak` backup created by renaming
the previous file is unlinked after a successful write; and when the
write fails the backup is restored, leaving the original `{id}.json`
content in place. -/
theorem c4_save_load (fs : FileSys) (j : JobState) (now : ℚ)
    (hbak : fsLookup fs (j.job_id ++ ".json.bak") = none) :
    (saveJob fs j now true).2.1 = true
    ∧ (saveJob fs j now true).2.2.updated_at = now
    ∧ loadJob (saveJob fs j now true).1 j.job_id =
        some { j with updated_at := now }
    ∧ fsLookup (saveJob fs j now true).1 (j.job_id ++ ".json.bak") = none
    ∧ (saveJob fs j now false).2.1 = false
    ∧ fsLookup (saveJob fs j now false).1 (j.job_id ++ ".json") =
        fsLookup fs (j.job_id ++ ".json") := by
  have hfb : j.job_id ++ ".json" ≠ j.job_id ++ ".json.bak" := by
    intro h
    have hlen := congrArg String.length h
    have h5 : (".json" : String).length = 5 := rfl
    have h9 : (".json.bak" : String).length = 9 := rfl
    rw [String.length_append, String.length_append, h5, h9] at hlen
    omega
  have key : ∀ fs1 : FileSys,
      loadJob (fsErase (fsInsert fs1 (j.job_id ++ ".json")
          (FileContent.jsonFile (toDict { j with updated_at := now })))
        (j.job_id ++ ".json.bak")) j.job_id =
        some { j with updated_at := now }
      ∧ fsLookup (fsErase (fsInsert fs1 (j.job_id ++ ".json")
          (FileContent.jsonFile (toDict { j with updated_at := now })))
        (j.job_id ++ ".json.bak")) (j.job_id ++ ".json.bak") = none := by
    intro fs1
    have hlook : fsLookup (fsErase (fsInsert fs1 (j.job_id ++ ".json")
        (FileContent.jsonFile (toDict { j with updated_at := now })))
        (j.job_id ++ ".json.bak")) (j.job_id ++ ".json") =
        some (FileContent.jsonFile (toDict { j with updated_at := now })) := by
      rw [fsLookup_erase, if_neg hfb, fsLookup_insert, if_pos rfl]
    constructor
    · simp only [loadJob, resolveJobFile, hlook]
      simpa [parseJobFile] using fromDict_toDict { j with updated_at := now }
    · rw [fsLookup_erase, if_pos rfl]
  refine ⟨rfl, rfl, (key _).1, (key _).2, rfl, ?_⟩
  by_cases hex : (fsLookup fs (j.job_id ++ ".json")).isSome
  · obtain ⟨c0, hc0⟩ := Option.isSome_iff_exists.mp hex
    have h1 : fsLookup (fsRename fs (j.job_id ++ ".json")
        (j.job_id ++ ".json.bak")) (j.job_id ++ ".json.bak") = some c0 := by
      rw [fsRename_eq_of_some _ _ _ _ hc0, fsLookup_insert, if_pos rfl]
    simp only [saveJob, hc0, Option.isSome_some, if_true, h1,
      Bool.false_eq_true, if_false]
    rw [fsRename_eq_of_some _ _ _ _ h1, fsLookup_insert, if_pos rfl]
  · have hnone : fsLookup fs (j.job_id ++ ".json") = none :=
      Option.not_isSome_iff_eq_none.mp hex
    simp only [saveJob, hnone, Option.isSome_none, Bool.false_eq_true,
      if_false, hbak]

/-- Witness for C4: saving a fresh job into an empty directory and
loading it back. -/
theorem c4_save_load_w :
    loadJob (saveJob [] sampleJob 5 true).1 sampleJob.job_id =
      some { sampleJob with updated_at := 5 } :=
  (c4_save_load [] sampleJob 5 rfl).2.2.1

/-- C9 (counterexample): loading `"j1"` when its only file is
unparseable returns `none` — exactly the same value as loading it from
an empty directory.  The caller cannot distinguish a corrupt record
from "job not found", so no recoverable error is surfaced to it. -/
theorem c9_counterexample :
    loadJob corruptFs "j1" = none ∧ loadJob ([] : FileSys) "j1" = none := by
  constructor <;> rfl

/-- C9 (amended): a missing id (no exact file and no glob match) makes
`load_job` return `None` with nothing printed, while an existing but
unparseable file makes it print the `Error loading job` message and
return `None` as well — the two failure modes are distinguished only in
the console log, never in the value returned to the caller (which
equals `loadJob`'s result in all cases). -/
theorem c9_amended (fs : FileSys) (job_id : String) :
    (resolveJobFile fs job_id = none →
      loadJobLogged fs job_id = (none, false))
    ∧ (∀ name, resolveJobFile fs job_id = some (name, FileContent.corruptFile) →
        loadJobLogged fs job_id = (none, true))
    ∧ loadJob fs job_id = (loadJobLogged fs job_id).1 := by
  refine ⟨?_, ?_, ?_⟩
  · intro h
    simp only [loadJobLogged, h]
  · intro name h
    simp only [loadJobLogged, h, parseJobFile]
  · cases hres : resolveJobFile fs job_id with
    | none => simp [loadJob, loadJobLogged, hres]
    | some p =>
      cases hp : parseJobFile p.2 with
      | none => simp [loadJob, loadJobLogged, hres, hp]
      | some jj => simp [loadJob, loadJobLogged, hres, hp]

/-- Witness for C9: the corrupt file prints the error and yields
`none`. -/
theorem c9_amended_w : loadJobLogged corruptFs "j1" = (none, true) :=
  (c9_amended corruptFs "j1").2.1 "j1.json" rfl

theorem findMatch_some (fs : FileSys) (pat : String)
    (p : String × FileContent) (h : findMatch fs pat = some p) :
    globMatch p.1 pat = true ∧ p ∈ fs := by
  induction fs with
  | nil => exact absurd h (by simp [findMatch])
  | cons q fs ih =>
    rw [findMatch] at h
    by_cases hq : globMatch q.1 pat = true
    · rw [if_pos hq] at h
      cases Option.some.inj h
      exact ⟨hq, List.mem_cons_self _ _⟩
    · rw [if_neg hq] at h
      obtain ⟨h1, h2⟩ := ih h
      exact ⟨h1, List.mem_cons_of_mem q h2⟩

theorem fsLookup_none_not_mem (fs : FileSys) (n : String)
    (h : fsLookup fs n = none) : ∀ p ∈ fs, p.1 ≠ n := by
  induction fs with
  | nil => intro p hp; exact absurd hp (List.not_mem_nil p)
  | cons q fs ih =>
    intro p hp
    rw [fsLookup] at h
    by_cases hq : q.1 = n
    · rw [if_pos hq] at h
      exact absurd h (by simp)
    · rw [if_neg hq] at h
      rcases List.mem_cons.mp hp with rfl | hmem
      · exact hq
      · exact ih h p hmem

theorem fromDict_job_id (r : JobRecord) (j : JobState)
    (h : fromDict r = some j) : j.job_id = r.job_id := by
  rw [fromDict] at h
  cases hs : stageOfValue r.current_stage with
  | none =>
    rw [hs] at h
    exact absurd h (by simp)
  | some st =>
    rw [hs] at h
    cases Option.some.inj h
    rfl

theorem dropLastN_append5 (xs ys : List Char) (h : ys.length = 5) :
    dropLastN (xs ++ ys) 5 = xs := by
  rw [dropLastN, List.length_append, h, Nat.add_sub_cancel]
  exact List.take_left xs ys

theorem infix_of_globMatch (pat stem : String)
    (h : globMatch (stem ++ ".json") pat = true) :
    pat.data <:+: stem.data := by
  rw [globMatch, Bool.and_eq_true] at h
  have h2 := of_decide_eq_true h.2
  rw [show (stem ++ ".json").data = stem.data ++ ".json".data from
      String.data_append stem ".json",
    dropLastN_append5 stem.data ".json".data rfl] at h2
  exact h2

/-- C10: when no exact `{id}.json` exists, `load_job` falls back to the
first `*{id}*.json` glob match; in a well-formed jobs directory (file
names match the job ids they store) any job returned through this
fallback has an id of which the requested string is a strict substring
(proper infix of the character list). -/
theorem c10_glob_fallback (fs : FileSys) (job_id : String) (j : JobState)
    (hwf : ∀ p ∈ fs, ∀ r, p.2 = FileContent.jsonFile r →
      p.1 = r.job_id ++ ".json")
    (hmiss : fsLookup fs (job_id ++ ".json") = none)
    (hload : loadJob fs job_id = some j) :
    job_id ≠ j.job_id ∧ job_id.data <:+: j.job_id.data := by
  rw [loadJob, resolveJobFile, hmiss] at hload
  cases hfm : findMatch fs job_id with
  | none =>
    rw [hfm] at hload
    exact absurd hload (by simp)
  | some p =>
    rw [hfm] at hload
    simp only [Option.some_bind] at hload
    obtain ⟨hglob, hmem⟩ := findMatch_some fs job_id p hfm
    cases hc : p.2 with
    | corruptFile =>
      rw [hc] at hload
      exact absurd hload (by simp [parseJobFile])
    | jsonFile r =>
      rw [hc] at hload
      have hid : j.job_id = r.job_id :=
        fromDict_job_id r j (by simpa [parseJobFile] using hload)
      have hname : p.1 = r.job_id ++ ".json" := hwf p hmem r hc
      have hinf : job_id.data <:+: r.job_id.data :=
        infix_of_globMatch job_id r.job_id (by rw [← hname]; exact hglob)
      refine ⟨?_, by rw [hid]; exact hinf⟩
      intro heq
      have hp1 : p.1 = job_id ++ ".json" := by
        rw [hname, ← hid, ← heq]
      exact fsLookup_none_not_mem fs (job_id ++ ".json") hmiss p hmem hp1

/-- Witness for C10: requesting `"7"` in a directory holding only
`job_7_abc.json` returns the `job_7_abc` job, and `"7"` is a strict
substring of it. -/
theorem c10_glob_fallback_w :
    ("7" : String) ≠ wideJob.job_id
    ∧ ("7" : String).data <:+: wideJob.job_id.data := by
  refine c10_glob_fallback wideFs "7" wideJob ?_ rfl (by decide)
  intro p hp r hr
  have hp' : p = ("job_7_abc.json", FileContent.jsonFile (toDict wideJob)) := by
    simpa [wideFs] using hp
  subst hp'
  cases FileContent.jsonFile.inj hr
  rfl
